import Mathlib

/-!
Verification of the chess rule engine (ChessBoard.cpp).

The board is an 8x8 grid of cells; each cell holds either nothing or a
reference to a piece object. Piece objects live in a heap addressed by
natural-number ids (the analogue of C++ pointers); they are mutated in
place across moves. The operations `move`, `undo`, `attemptRoundMove`,
`getPieceAt` and the two constructors are translated from
ChessBoard.cpp. The piece classes (geometry predicate `canMove`,
mutators `setRow` / `setColumn` / `flagMoved`), the `Move` record and the
`ALLOWED_COLORS` set are declared in the header of the repository, which
is not present under src/; those are modelled from the spec and marked as
such in their doc comments.
-/

namespace Chess

/-- The six piece kinds of the engine. -/
inductive PieceType where
  | pawn
  | rook
  | knight
  | bishop
  | queen
  | king
deriving DecidableEq

/-- Modelled from the spec: the state of one ChessPiece object (type,
color, current position, has-moved flag, and the pawn-only flags
`movingUp` and `doubleJumpable`). Positions are C++ ints. -/
structure PieceState where
  ptype : PieceType
  color : String
  row : Int
  col : Int
  hasMoved : Bool
  movingUp : Bool
  doubleJumpable : Bool
deriving DecidableEq

/-- The 8x8 grid of cells: each cell holds either no piece or the id of a
piece object in the heap (the analogue of a ChessPiece pointer). -/
abbrev Grid := Fin 8 → Fin 8 → Option Nat

/-- The heap of piece objects addressed by id (the analogue of the C++
free store; the `pieces` ownership list of ChessBoard keeps every piece
alive, so an id remains valid forever). -/
abbrev Heap := Nat → PieceState

/-- Modelled from the spec: a square is a (row, col) pair with each
coordinate in [0,8). -/
abbrev Square := Fin 8 × Fin 8

/-- Interpret an in-bounds C++ int coordinate as a grid index. -/
def toIdx (r : Int) : Fin 8 := ⟨r.toNat % 8, Nat.mod_lt _ (by decide)⟩

/-- The bounds test of ChessBoard.cpp, as used by `move` and
`getPieceAt`: the negation of `row < 0 || col < 0 || row >= 8 || col >= 8`. -/
def inBounds (r c : Int) : Prop := 0 ≤ r ∧ r < 8 ∧ 0 ≤ c ∧ c < 8

instance (r c : Int) : Decidable (inBounds r c) := by
  unfold inBounds
  infer_instance

/-- Write one cell of the grid. -/
def setCell (g : Grid) (s : Square) (v : Option Nat) : Grid :=
  fun i j => if i = s.1 ∧ j = s.2 then v else g i j

/-- Write one piece object of the heap. -/
def updAt (hp : Heap) (n : Nat) (p : PieceState) : Heap :=
  fun m => if m = n then p else hp m

/-- Read a cell at C++ int coordinates; out of bounds reads give nothing.
Inside `move` and `canMove` every read happens after a bounds check. -/
def cellAt (g : Grid) (r c : Int) : Option Nat :=
  if inBounds r c then g (toIdx r) (toIdx c) else none

/-- Modelled from the spec: the `Move` record pushed for every executed
move — source square, target square, the moved piece and the captured
piece (absent when the target cell was empty). -/
structure Move where
  orig : Square
  target : Square
  movedPiece : Option Nat
  capturedPiece : Option Nat
deriving DecidableEq

/-- Modelled from the spec: `flagMoved` sets the has-moved flag and, for
pawns, permanently clears `doubleJumpable`. -/
def PieceState.flagMoved (p : PieceState) : PieceState :=
  { p with hasMoved := true,
           doubleJumpable := if p.ptype = PieceType.pawn then false else p.doubleJumpable }

/-- Modelled from the spec: the unit step from coordinate `a` toward
coordinate `b`. -/
def stepToward (a b : Int) : Int :=
  if a < b then 1 else if b < a then -1 else 0

/-- Modelled from the spec: the forward direction of a pawn, determined by
its `movingUp` flag. -/
def pawnDir (p : PieceState) : Int := if p.movingUp then 1 else -1

/-- Modelled from the spec: every cell strictly between the source and the
target of a straight or diagonal sliding move must be empty. -/
def pathClear (g : Grid) (r c tr tc : Int) : Bool :=
  let n := max (tr - r).natAbs (tc - c).natAbs
  (List.range (n - 1)).all fun k =>
    (cellAt g (r + ((k : Int) + 1) * stepToward r tr)
              (c + ((k : Int) + 1) * stepToward c tc)).isNone

/-- Modelled from the spec: the target cell is occupied by a piece of the
same color as the mover. -/
def sameColorAtTarget (p : PieceState) (tr tc : Int) (g : Grid) (hp : Heap) : Bool :=
  match cellAt g tr tc with
  | some q => (hp q).color == p.color
  | none => false

/-- Modelled from the spec: rook geometry — any distance along a rank or
file with every intervening cell empty. -/
def rookGeom (p : PieceState) (tr tc : Int) (g : Grid) : Bool :=
  ((p.row == tr && p.col != tc) || (p.col == tc && p.row != tr)) &&
    pathClear g p.row p.col tr tc

/-- Modelled from the spec: bishop geometry — any distance along a
diagonal with every intervening cell empty. -/
def bishopGeom (p : PieceState) (tr tc : Int) (g : Grid) : Bool :=
  ((tr - p.row).natAbs == (tc - p.col).natAbs && tr != p.row) &&
    pathClear g p.row p.col tr tc

/-- Modelled from the spec: knight geometry — an offset of (1,2) or (2,1)
in absolute value; obstruction is irrelevant. -/
def knightGeom (p : PieceState) (tr tc : Int) : Bool :=
  ((tr - p.row).natAbs == 1 && (tc - p.col).natAbs == 2) ||
  ((tr - p.row).natAbs == 2 && (tc - p.col).natAbs == 1)

/-- Modelled from the spec: king geometry — exactly one square in any of
the eight directions. -/
def kingGeom (p : PieceState) (tr tc : Int) : Bool :=
  max (tr - p.row).natAbs (tc - p.col).natAbs == 1

/-- Modelled from the spec: pawn geometry — one square forward to an empty
cell; two squares forward while `doubleJumpable` still holds with both
cells empty; a diagonal one-square forward move only onto an opposing
piece. -/
def pawnGeom (p : PieceState) (tr tc : Int) (g : Grid) (hp : Heap) : Bool :=
  (tc == p.col && tr == p.row + pawnDir p && (cellAt g tr tc).isNone) ||
  (tc == p.col && tr == p.row + 2 * pawnDir p && p.doubleJumpable &&
      (cellAt g (p.row + pawnDir p) p.col).isNone && (cellAt g tr tc).isNone) ||
  ((tc - p.col).natAbs == 1 && tr == p.row + pawnDir p &&
      (match cellAt g tr tc with
       | some q => (hp q).color != p.color
       | none => false))

/-- Modelled from the spec: the pure movement-legality predicate of the
piece classes. It rejects an out-of-bounds target and a target occupied
by a piece of the same color, then dispatches on the piece kind. -/
def PieceState.canMove (p : PieceState) (tr tc : Int) (g : Grid) (hp : Heap) : Bool :=
  if ¬ inBounds tr tc then false
  else if sameColorAtTarget p tr tc g hp then false
  else match p.ptype with
    | PieceType.pawn => pawnGeom p tr tc g hp
    | PieceType.rook => rookGeom p tr tc g
    | PieceType.knight => knightGeom p tr tc
    | PieceType.bishop => bishopGeom p tr tc g
    | PieceType.queen => rookGeom p tr tc g || bishopGeom p tr tc g
    | PieceType.king => kingGeom p tr tc

/-- The state of a ChessBoard object: the grid, the heap of piece objects,
the turn flag, the two player colors and the `past_moves_` stack (top of
the stack is the head of the list). -/
structure ChessBoard where
  board : Grid
  heap : Heap
  playerOneTurn : Bool
  p1_color : String
  p2_color : String
  past_moves : List Move

/-- Is this cell reference a king? This is the capture guard of
ChessBoard.move: `captured_piece && captured_piece->getType() == "KING"`. -/
def isKingRef (hp : Heap) (o : Option Nat) : Bool :=
  match o with
  | some q => (hp q).ptype == PieceType.king
  | none => false

/-- ChessBoard.move, translated from ChessBoard.cpp lines 221-254: bounds
checks on both coordinate pairs, source cell occupied, source color equal
to the color in play, `canMove` accepts, target is not a king; then the
grid is updated (target first, then source cleared), the moved piece gets
its new coordinates and is flagged moved. The turn flag is never touched. -/
def ChessBoard.move (b : ChessBoard) (row col new_row new_col : Int) : Bool × ChessBoard :=
  if ¬ inBounds row col then (false, b)
  else if ¬ inBounds new_row new_col then (false, b)
  else
    match b.board (toIdx row) (toIdx col) with
    | none => (false, b)
    | some pid =>
      if (b.heap pid).color ≠ (if b.playerOneTurn then b.p1_color else b.p2_color) then (false, b)
      else if ¬ ((b.heap pid).canMove new_row new_col b.board b.heap = true) then (false, b)
      else if isKingRef b.heap (b.board (toIdx new_row) (toIdx new_col)) = true then (false, b)
      else
        (true,
          { b with
            board := setCell (setCell b.board (toIdx new_row, toIdx new_col) (some pid))
                             (toIdx row, toIdx col) none,
            heap := updAt b.heap pid
                      (PieceState.flagMoved { b.heap pid with row := new_row, col := new_col }) })

/-- Update the coordinates of the piece referenced by `o` (if any) to the
square `s`; the setRow / setColumn calls of ChessBoard.undo. -/
def setPos (hp : Heap) (o : Option Nat) (s : Square) : Heap :=
  match o with
  | some pid => updAt hp pid { hp pid with row := (s.1.val : Int), col := (s.2.val : Int) }
  | none => hp

/-- The state change of ChessBoard.undo once a move record has been
popped: the moved piece goes back to the source square, the captured
piece (if any) back to the target square, both with their coordinates
updated, and the turn flag is toggled. -/
def applyUndo (m : Move) (b : ChessBoard) : ChessBoard :=
  { b with
    board := setCell (setCell b.board m.orig m.movedPiece) m.target m.capturedPiece,
    heap := setPos (setPos b.heap m.movedPiece m.orig) m.capturedPiece m.target,
    playerOneTurn := !b.playerOneTurn }

/-- ChessBoard.undo, translated from ChessBoard.cpp lines 349-384: on an
empty history it returns false and changes nothing; otherwise it pops the
top move record and reverts it. -/
def ChessBoard.undo (b : ChessBoard) : Bool × ChessBoard :=
  match b.past_moves with
  | [] => (false, b)
  | m :: rest => (true, { applyUndo m b with past_moves := rest })

/-- ChessBoard.getPieceAt, translated from ChessBoard.cpp lines 390-395:
bounds-checked cell read, nothing for out-of-range coordinates. -/
def ChessBoard.getPieceAt (b : ChessBoard) (row col : Int) : Option Nat :=
  if ¬ inBounds row col then none else b.board (toIdx row) (toIdx col)

/-- The move branch of ChessBoard.attemptRound (ChessBoard.cpp lines
312-327), given the four integers read from the user: the two cells are
read first, the move is attempted, and on success a `Move` record is
pushed onto `past_moves_` and the turn flag is toggled. -/
def ChessBoard.attemptRoundMove (b : ChessBoard) (ir ic sr sc : Int) : Bool × ChessBoard :=
  if (b.move ir ic sr sc).1 then
    (true,
      { (b.move ir ic sr sc).2 with
        past_moves := { orig := (toIdx ir, toIdx ic), target := (toIdx sr, toIdx sc),
                        movedPiece := b.getPieceAt ir ic,
                        capturedPiece := b.getPieceAt sr sc } :: (b.move ir ic sr sc).2.past_moves,
        playerOneTurn := !(b.move ir ic sr sc).2.playerOneTurn })
  else (false, (b.move ir ic sr sc).2)

/-- Modelled from the spec: BoardColorizer.ALLOWED_COLORS, the allowed
color set; it matches the keys of the COLOR_CODES map of
BoardColorizer.colorText in ChessBoard.cpp. -/
def ALLOWED_COLORS : List String :=
  ["BLACK", "RED", "GREEN", "YELLOW", "BLUE", "MAGENTA", "CYAN", "WHITE"]

/-- The color validation of the two-color constructor (ChessBoard.cpp
lines 62-68): if either color is not allowed, or both are equal, both
reset to BLACK and WHITE; otherwise the supplied colors are kept. -/
def validatedColors (p1 p2 : String) : String × String :=
  if p1 ∉ ALLOWED_COLORS ∨ p2 ∉ ALLOWED_COLORS ∨ p1 = p2 then ("BLACK", "WHITE")
  else (p1, p2)

/-- The back-rank pattern of the two-color constructor: Rook, Knight,
Bishop, King, Queen, Bishop, Knight, Rook. -/
def innerPieces : List PieceType :=
  [PieceType.rook, PieceType.knight, PieceType.bishop, PieceType.king,
   PieceType.queen, PieceType.bishop, PieceType.knight, PieceType.rook]

/-- A freshly constructed back-rank piece: non-pawn flags are default
initialized. -/
def backPiece (color : String) (r n : Nat) : PieceState :=
  { ptype := innerPieces.getD n PieceType.rook, color := color,
    row := (r : Int), col := (n : Int),
    hasMoved := false, movingUp := false, doubleJumpable := false }

/-- A freshly constructed pawn: `doubleJumpable` starts true, `movingUp`
is fixed at creation. -/
def pawnPiece (color : String) (r n : Nat) (up : Bool) : PieceState :=
  { ptype := PieceType.pawn, color := color,
    row := (r : Int), col := (n : Int),
    hasMoved := false, movingUp := up, doubleJumpable := true }

/-- The 32 pieces allocated by the two-color constructor, by id: ids 0-7
are the player-one back rank (row 0), ids 8-15 the player-one pawns
(row 1, moving up), ids 16-23 the player-two pawns (row 6), ids 24-31 the
player-two back rank (row 7). Ids 32 and up are never referenced by a
fresh grid. -/
def initHeap (c1 c2 : String) : Heap := fun n =>
  if n < 8 then backPiece c1 0 n
  else if n < 16 then pawnPiece c1 1 (n - 8) true
  else if n < 24 then pawnPiece c2 6 (n - 16) false
  else if n < 32 then backPiece c2 7 (n - 24)
  else { ptype := PieceType.pawn, color := "", row := 0, col := 0,
         hasMoved := false, movingUp := false, doubleJumpable := false }

/-- The fresh grid of the two-color constructor: rows 0, 1, 6, 7 hold the
ids assigned by `initHeap`; rows 2-5 are empty. -/
def initGrid : Grid := fun r c =>
  if r.val = 0 then some c.val
  else if r.val = 1 then some (8 + c.val)
  else if r.val = 6 then some (16 + c.val)
  else if r.val = 7 then some (24 + c.val)
  else none

/-- The two-color constructor (ChessBoard.cpp lines 59-106): validated
colors, standard layout, player one to move, empty history. It is total —
invalid colors are normalized, never reported. -/
def ChessBoard.mkStandard (p1 p2 : String) : ChessBoard :=
  { board := initGrid,
    heap := initHeap (validatedColors p1 p2).1 (validatedColors p1 p2).2,
    playerOneTurn := true,
    p1_color := (validatedColors p1 p2).1,
    p2_color := (validatedColors p1 p2).2,
    past_moves := [] }

/-- The grid-adopting constructor (ChessBoard.cpp lines 118-126): adopts
the supplied grid and turn flag and always sets the player colors to
BLACK and WHITE. -/
def ChessBoard.mkFromGrid (g : Grid) (hp : Heap) (p1Turn : Bool) : ChessBoard :=
  { board := g, heap := hp, playerOneTurn := p1Turn,
    p1_color := "BLACK", p2_color := "WHITE", past_moves := [] }

/-! Basic lemmas about indices, cell and heap updates. -/

theorem toIdx_val {r : Int} (h0 : 0 ≤ r) (h8 : r < 8) : ((toIdx r).val : Int) = r := by
  unfold toIdx
  have h1 : r.toNat < 8 := by omega
  simp [Nat.mod_eq_of_lt h1]
  omega

theorem toIdx_inj {r s : Int} (hr0 : 0 ≤ r) (hr8 : r < 8) (hs0 : 0 ≤ s) (hs8 : s < 8)
    (h : toIdx r = toIdx s) : r = s := by
  have := congrArg (fun x : Fin 8 => (x.val : Int)) h
  simpa [toIdx_val hr0 hr8, toIdx_val hs0 hs8] using this

theorem setCell_same (g : Grid) (s : Square) (v : Option Nat) :
    setCell g s v s.1 s.2 = v := by
  simp [setCell]

theorem setCell_other (g : Grid) (s : Square) (v : Option Nat) (i j : Fin 8)
    (h : ¬ (i = s.1 ∧ j = s.2)) : setCell g s v i j = g i j := by
  simp [setCell, h]

theorem updAt_same (hp : Heap) (n : Nat) (p : PieceState) : updAt hp n p n = p := by
  simp [updAt]

theorem updAt_other (hp : Heap) (n : Nat) (p : PieceState) (m : Nat) (h : m ≠ n) :
    updAt hp n p m = hp m := by
  simp [updAt, h]

theorem flagMoved_row (p : PieceState) : p.flagMoved.row = p.row := rfl

theorem flagMoved_col (p : PieceState) : p.flagMoved.col = p.col := rfl

theorem flagMoved_ptype (p : PieceState) : p.flagMoved.ptype = p.ptype := rfl

theorem flagMoved_color (p : PieceState) : p.flagMoved.color = p.color := rfl

theorem setPos_ptype (hp : Heap) (o : Option Nat) (s : Square) (n : Nat) :
    (setPos hp o s n).ptype = (hp n).ptype := by
  cases o with
  | none => rfl
  | some pid =>
    by_cases h : n = pid
    · subst h
      simp [setPos, updAt_same]
    · simp [setPos, updAt_other _ _ _ _ h]

theorem setPos_color (hp : Heap) (o : Option Nat) (s : Square) (n : Nat) :
    (setPos hp o s n).color = (hp n).color := by
  cases o with
  | none => rfl
  | some pid =>
    by_cases h : n = pid
    · subst h
      simp [setPos, updAt_same]
    · simp [setPos, updAt_other _ _ _ _ h]

theorem setPos_doubleJumpable (hp : Heap) (o : Option Nat) (s : Square) (n : Nat) :
    (setPos hp o s n).doubleJumpable = (hp n).doubleJumpable := by
  cases o with
  | none => rfl
  | some pid =>
    by_cases h : n = pid
    · subst h
      simp [setPos, updAt_same]
    · simp [setPos, updAt_other _ _ _ _ h]

/-! The canMove guard facts used by the board-level proofs. -/

theorem canMove_inBounds {p : PieceState} {tr tc : Int} {g : Grid} {hp : Heap}
    (h : p.canMove tr tc g hp = true) : inBounds tr tc := by
  by_contra hb
  simp [PieceState.canMove, hb] at h

theorem canMove_not_sameColor {p : PieceState} {tr tc : Int} {g : Grid} {hp : Heap}
    (h : p.canMove tr tc g hp = true) : sameColorAtTarget p tr tc g hp = false := by
  by_cases hb : inBounds tr tc
  · by_cases hs : sameColorAtTarget p tr tc g hp = true
    · simp [PieceState.canMove, hb, hs] at h
    · simpa using hs
  · simp [PieceState.canMove, hb] at h

/-- The target cell of an accepted move does not hold the mover itself (in
particular the mover carries its own color there). -/
theorem canMove_target_not_self {b : ChessBoard} {pid : Nat} {tr tc : Int}
    (h : (b.heap pid).canMove tr tc b.board b.heap = true) :
    b.board (toIdx tr) (toIdx tc) ≠ some pid := by
  intro hcell
  have hb : inBounds tr tc := canMove_inBounds h
  have hs := canMove_not_sameColor h
  rw [sameColorAtTarget] at hs
  rw [cellAt, if_pos hb, hcell] at hs
  simp at hs

/-- Every call to ChessBoard.move either rejects, returning false with the
state untouched, or accepts, with all five guards satisfied and the
result state given explicitly. -/
theorem move_total (b : ChessBoard) (row col nr nc : Int) :
    b.move row col nr nc = (false, b) ∨
    ∃ pid,
      inBounds row col ∧ inBounds nr nc ∧
      b.board (toIdx row) (toIdx col) = some pid ∧
      (b.heap pid).color = (if b.playerOneTurn then b.p1_color else b.p2_color) ∧
      (b.heap pid).canMove nr nc b.board b.heap = true ∧
      isKingRef b.heap (b.board (toIdx nr) (toIdx nc)) = false ∧
      b.move row col nr nc =
        (true,
          { b with
            board := setCell (setCell b.board (toIdx nr, toIdx nc) (some pid))
                             (toIdx row, toIdx col) none,
            heap := updAt b.heap pid
                      (PieceState.flagMoved { b.heap pid with row := nr, col := nc }) }) := by
  by_cases h1 : inBounds row col
  case neg =>
    left
    simp [ChessBoard.move, h1]
  by_cases h2 : inBounds nr nc
  case neg =>
    left
    simp [ChessBoard.move, h1, h2]
  cases hcell : b.board (toIdx row) (toIdx col) with
  | none =>
    left
    simp [ChessBoard.move, h1, h2, hcell]
  | some pid =>
    by_cases h3 : (b.heap pid).color = (if b.playerOneTurn then b.p1_color else b.p2_color)
    case neg =>
      left
      simp [ChessBoard.move, h1, h2, hcell, h3]
    by_cases h4 : (b.heap pid).canMove nr nc b.board b.heap = true
    case neg =>
      left
      simp [ChessBoard.move, h1, h2, hcell, h3, h4]
    by_cases h5 : isKingRef b.heap (b.board (toIdx nr) (toIdx nc)) = true
    · left
      simp [ChessBoard.move, h1, h2, hcell, h3, h4, h5]
    · right
      refine ⟨pid, h1, h2, rfl, h3, h4, by simpa using h5, ?_⟩
      simp [ChessBoard.move, h1, h2, hcell, h3, h4, h5]

/-- A successful move has a successful `move_total` branch. -/
theorem move_success_cases {b : ChessBoard} {row col nr nc : Int}
    (h : (b.move row col nr nc).1 = true) :
    ∃ pid,
      inBounds row col ∧ inBounds nr nc ∧
      b.board (toIdx row) (toIdx col) = some pid ∧
      (b.heap pid).color = (if b.playerOneTurn then b.p1_color else b.p2_color) ∧
      (b.heap pid).canMove nr nc b.board b.heap = true ∧
      isKingRef b.heap (b.board (toIdx nr) (toIdx nc)) = false ∧
      b.move row col nr nc =
        (true,
          { b with
            board := setCell (setCell b.board (toIdx nr, toIdx nc) (some pid))
                             (toIdx row, toIdx col) none,
            heap := updAt b.heap pid
                      (PieceState.flagMoved { b.heap pid with row := nr, col := nc }) }) := by
  rcases move_total b row col nr nc with hf | hs
  · rw [hf] at h
    simp at h
  · exact hs

/-- C2: the turn-toggle asymmetry — `move` never changes the turn flag
(whatever it returns), while a successful `undo` negates it. -/
theorem turn_flag_toggle_asymmetry (b : ChessBoard) (row col nr nc : Int) :
    (b.move row col nr nc).2.playerOneTurn = b.playerOneTurn ∧
    ((b.undo).1 = true → (b.undo).2.playerOneTurn = !b.playerOneTurn) := by
  constructor
  · rcases move_total b row col nr nc with hf | ⟨pid, _, _, _, _, _, _, hs⟩
    · rw [hf]
    · rw [hs]
  · intro hu
    cases hp : b.past_moves with
    | nil => simp [ChessBoard.undo, hp] at hu
    | cons m rest => simp [ChessBoard.undo, hp, applyUndo]

/-- Witness for C2 on a concrete board: a board with one recorded move,
where a failed move keeps the turn flag and a successful undo negates it. -/
theorem turn_flag_toggle_asymmetry_witness :
    (((ChessBoard.mkStandard "BLACK" "WHITE").attemptRoundMove 1 4 3 4).2.move 1 0 5 0).2.playerOneTurn =
      ((ChessBoard.mkStandard "BLACK" "WHITE").attemptRoundMove 1 4 3 4).2.playerOneTurn ∧
    ((((ChessBoard.mkStandard "BLACK" "WHITE").attemptRoundMove 1 4 3 4).2.undo).2.playerOneTurn =
      !((ChessBoard.mkStandard "BLACK" "WHITE").attemptRoundMove 1 4 3 4).2.playerOneTurn) :=
  ⟨(turn_flag_toggle_asymmetry _ 1 0 5 0).1,
   (turn_flag_toggle_asymmetry ((ChessBoard.mkStandard "BLACK" "WHITE").attemptRoundMove 1 4 3 4).2
      0 0 0 0).2 (by decide)⟩

/-- C3: every rejected `move` returns with the whole board state — grid,
heap of pieces, colors, history and turn flag — exactly as before. -/
theorem move_rejection_leaves_state_unchanged (b : ChessBoard) (row col nr nc : Int)
    (h : (b.move row col nr nc).1 = false) : (b.move row col nr nc).2 = b := by
  rcases move_total b row col nr nc with hf | ⟨pid, _, _, _, _, _, _, hs⟩
  · rw [hf]
  · rw [hs] at h
    simp at h

/-- Witness for C3: a fresh-board rook move onto its own knight is
rejected and the state is unchanged. -/
theorem move_rejection_leaves_state_unchanged_witness :
    ((ChessBoard.mkStandard "BLACK" "WHITE").move 0 0 0 1).2 = ChessBoard.mkStandard "BLACK" "WHITE" :=
  move_rejection_leaves_state_unchanged _ 0 0 0 1 (by decide)

/-- C4: `undo` fails exactly on an empty history, and a failing `undo`
changes nothing. -/
theorem undo_false_iff_empty_history (b : ChessBoard) :
    ((b.undo).1 = false ↔ b.past_moves = []) ∧
    (b.past_moves = [] → (b.undo).2 = b) := by
  cases hp : b.past_moves with
  | nil =>
    refine ⟨?_, ?_⟩
    · simp [ChessBoard.undo, hp]
    · intro _
      simp [ChessBoard.undo, hp]
  | cons m rest =>
    refine ⟨?_, ?_⟩
    · simp [ChessBoard.undo, hp]
    · intro hc
      cases hc

/-- Witness for C4: undo on a fresh board (empty history) changes
nothing. -/
theorem undo_false_iff_empty_history_witness :
    ((ChessBoard.mkStandard "BLACK" "WHITE").undo).2 = ChessBoard.mkStandard "BLACK" "WHITE" :=
  (undo_false_iff_empty_history _).2 rfl

/-- C5: a move whose destination holds a king is rejected with the state
untouched, and consequently a successful move never removes a king from
the grid. -/
theorem move_never_captures_king (b : ChessBoard) (row col nr nc : Int) :
    (∀ pid, b.getPieceAt nr nc = some pid → (b.heap pid).ptype = PieceType.king →
        b.move row col nr nc = (false, b)) ∧
    ((b.move row col nr nc).1 = true →
      ∀ pid, (b.heap pid).ptype = PieceType.king →
        ∀ r c : Fin 8, b.board r c = some pid →
          ∃ i j : Fin 8, (b.move row col nr nc).2.board i j = some pid ∧
            ((b.move row col nr nc).2.heap pid).ptype = PieceType.king) := by
  constructor
  · intro pid hget hking
    rcases move_total b row col nr nc with hf | ⟨pid0, hb1, hb2, hsrc, hcol, hcan, hkref, hs⟩
    · exact hf
    · exfalso
      rw [ChessBoard.getPieceAt, if_neg (not_not_intro hb2)] at hget
      rw [hget] at hkref
      simp [isKingRef, hking] at hkref
  · intro hmv pid hking r c hcell
    rcases move_success_cases hmv with ⟨pid0, hb1, hb2, hsrc, hcol, hcan, hkref, hs⟩
    by_cases hpp : pid = pid0
    · subst hpp
      refine ⟨toIdx nr, toIdx nc, ?_, ?_⟩
      · rw [hs]
        have hne : ¬ (toIdx nr = toIdx row ∧ toIdx nc = toIdx col) := by
          intro hcontra
          apply canMove_target_not_self hcan
          rw [hcontra.1, hcontra.2, hsrc]
        show setCell (setCell b.board (toIdx nr, toIdx nc) (some pid)) (toIdx row, toIdx col) none
              (toIdx nr) (toIdx nc) = some pid
        rw [setCell_other _ _ _ _ _ hne]
        exact setCell_same b.board (toIdx nr, toIdx nc) (some pid)
      · rw [hs]
        show (updAt b.heap pid (PieceState.flagMoved { b.heap pid with row := nr, col := nc }) pid).ptype
              = PieceType.king
        rw [updAt_same, flagMoved_ptype]
        exact hking
    · have hne_src : ¬ (r = toIdx row ∧ c = toIdx col) := by
        intro hcontra
        apply hpp
        rw [hcontra.1, hcontra.2, hsrc] at hcell
        exact (Option.some.injEq _ _ ▸ hcell).symm ▸ rfl
      have hne_dst : ¬ (r = toIdx nr ∧ c = toIdx nc) := by
        intro hcontra
        rw [hcontra.1, hcontra.2] at hcell
        rw [hcell] at hkref
        simp [isKingRef, hking] at hkref
      refine ⟨r, c, ?_, ?_⟩
      · rw [hs]
        show setCell (setCell b.board (toIdx nr, toIdx nc) (some pid0)) (toIdx row, toIdx col) none
              r c = some pid
        rw [setCell_other _ _ _ _ _ hne_src, setCell_other _ _ _ _ _ hne_dst]
        exact hcell
      · rw [hs]
        show (updAt b.heap pid0 (PieceState.flagMoved { b.heap pid0 with row := nr, col := nc }) pid).ptype
              = PieceType.king
        rw [updAt_other _ _ _ _ hpp]
        exact hking

/-- Witness for C5: on a fresh board, attacking the square of the
player-two king (7,3) is rejected outright. -/
theorem move_never_captures_king_witness :
    (ChessBoard.mkStandard "BLACK" "WHITE").move 0 0 7 3 =
      (false, ChessBoard.mkStandard "BLACK" "WHITE") :=
  (move_never_captures_king _ 0 0 7 3).1 27 (by decide) (by decide)

/-- C6: the two-color constructor keeps a valid distinct color pair and
silently normalizes anything else to (BLACK, WHITE); it is a total
function, so no error ever reaches the caller. -/
theorem construction_normalizes_invalid_colors (p1 p2 : String) :
    ((ChessBoard.mkStandard p1 p2).p1_color, (ChessBoard.mkStandard p1 p2).p2_color) =
      (if p1 ∉ ALLOWED_COLORS ∨ p2 ∉ ALLOWED_COLORS ∨ p1 = p2 then ("BLACK", "WHITE")
       else (p1, p2)) := by
  by_cases h : p1 ∉ ALLOWED_COLORS ∨ p2 ∉ ALLOWED_COLORS ∨ p1 = p2
  · simp [ChessBoard.mkStandard, validatedColors, h]
  · simp [ChessBoard.mkStandard, validatedColors, h]

/-- C1: a successful move, recorded and turn-toggled as attemptRound does,
followed immediately by undo, succeeds and restores the grid snapshot and
the turn flag exactly. -/
theorem move_then_undo_roundtrip (b : ChessBoard) (ir ic sr sc : Int)
    (h : (b.attemptRoundMove ir ic sr sc).1 = true) :
    ((b.attemptRoundMove ir ic sr sc).2.undo).1 = true ∧
    (∀ r c : Fin 8, ((b.attemptRoundMove ir ic sr sc).2.undo).2.board r c = b.board r c) ∧
    ((b.attemptRoundMove ir ic sr sc).2.undo).2.playerOneTurn = b.playerOneTurn := by
  cases hmv : (b.move ir ic sr sc).1 with
  | false =>
    exfalso
    rw [ChessBoard.attemptRoundMove] at h
    rw [hmv] at h
    simp at h
  | true =>
    rcases move_success_cases hmv with ⟨pid, hb1, hb2, hsrc, hcol, hcan, hkref, hs⟩
    have hga : b.getPieceAt ir ic = b.board (toIdx ir) (toIdx ic) := by
      rw [ChessBoard.getPieceAt, if_neg (not_not_intro hb1)]
    have hgb : b.getPieceAt sr sc = b.board (toIdx sr) (toIdx sc) := by
      rw [ChessBoard.getPieceAt, if_neg (not_not_intro hb2)]
    refine ⟨?_, ?_, ?_⟩
    · simp [ChessBoard.attemptRoundMove, hs, ChessBoard.undo]
    · intro r c
      simp only [ChessBoard.attemptRoundMove, hs, ChessBoard.undo, applyUndo, hga, hgb, hsrc,
        if_true]
      simp only [setCell]
      split_ifs with hT hF
      · rw [hT.1, hT.2]
      · rw [hF.1, hF.2]
        exact hsrc.symm
      · rfl
    · simp [ChessBoard.attemptRoundMove, hs, ChessBoard.undo, applyUndo]

/-- Witness for C1: scenario A (pawn double step) recorded and undone on a
fresh board restores the cell (1,4) and the turn flag. -/
theorem move_then_undo_roundtrip_witness :
    (((ChessBoard.mkStandard "BLACK" "WHITE").attemptRoundMove 1 4 3 4).2.undo).1 = true ∧
    (((ChessBoard.mkStandard "BLACK" "WHITE").attemptRoundMove 1 4 3 4).2.undo).2.board 1 4 =
      (ChessBoard.mkStandard "BLACK" "WHITE").board 1 4 ∧
    (((ChessBoard.mkStandard "BLACK" "WHITE").attemptRoundMove 1 4 3 4).2.undo).2.playerOneTurn =
      (ChessBoard.mkStandard "BLACK" "WHITE").playerOneTurn := by
  have h := move_then_undo_roundtrip (ChessBoard.mkStandard "BLACK" "WHITE") 1 4 3 4 (by decide)
  exact ⟨h.1, h.2.1 1 4, h.2.2⟩

/-! Grid observations used to state the fresh-board layout. -/

/-- All 64 squares of the board. -/
def allSquares : List Square :=
  (List.finRange 8).flatMap fun r => (List.finRange 8).map fun c => (r, c)

theorem mem_allSquares (s : Square) : s ∈ allSquares := by
  rcases s with ⟨r, c⟩
  unfold allSquares
  rw [List.mem_flatMap]
  exact ⟨r, List.mem_finRange r, List.mem_map.mpr ⟨c, List.mem_finRange c, rfl⟩⟩

/-- The piece kind visible at a square, if any. -/
def typeAt (b : ChessBoard) (s : Square) : Option PieceType :=
  (b.board s.1 s.2).map fun pid => (b.heap pid).ptype

/-- The piece color visible at a square, if any. -/
def colorAt (b : ChessBoard) (s : Square) : Option String :=
  (b.board s.1 s.2).map fun pid => (b.heap pid).color

/-- The number of squares holding a piece of the given kind. -/
def countType (b : ChessBoard) (t : PieceType) : Nat :=
  (allSquares.filter fun s => decide (typeAt b s = some t)).length

/-- A boolean check over every occupied cell of the grid. -/
def cellsSatisfyB (b : ChessBoard) (f : Square → Nat → Bool) : Bool :=
  allSquares.all fun s =>
    match b.board s.1 s.2 with
    | some pid => f s pid
    | none => true

theorem of_cellsSatisfyB {b : ChessBoard} {f : Square → Nat → Bool}
    (h : cellsSatisfyB b f = true) :
    ∀ r c : Fin 8, ∀ pid, b.board r c = some pid → f (r, c) pid = true := by
  intro r c pid hcell
  have hmem := mem_allSquares (r, c)
  have hall := List.all_eq_true.mp h _ hmem
  rw [hcell] at hall
  exact hall

/-- C7: the fresh board of the two-color constructor has the standard
32-piece layout — the exact piece counts, player-one pieces on rows 0
and 1, player-two pieces on rows 6 and 7, empty middle rows, the
Rook-Knight-Bishop-King-Queen-Bishop-Knight-Rook back ranks, `movingUp`
exactly on the row-1 pawns, and player one to move. -/
theorem fresh_board_standard_layout (p1 p2 : String) :
    (countType (ChessBoard.mkStandard p1 p2) PieceType.pawn = 16 ∧
     countType (ChessBoard.mkStandard p1 p2) PieceType.rook = 4 ∧
     countType (ChessBoard.mkStandard p1 p2) PieceType.knight = 4 ∧
     countType (ChessBoard.mkStandard p1 p2) PieceType.bishop = 4 ∧
     countType (ChessBoard.mkStandard p1 p2) PieceType.queen = 2 ∧
     countType (ChessBoard.mkStandard p1 p2) PieceType.king = 2) ∧
    (∀ c : Fin 8,
      colorAt (ChessBoard.mkStandard p1 p2) (0, c) = some (ChessBoard.mkStandard p1 p2).p1_color ∧
      colorAt (ChessBoard.mkStandard p1 p2) (1, c) = some (ChessBoard.mkStandard p1 p2).p1_color ∧
      colorAt (ChessBoard.mkStandard p1 p2) (6, c) = some (ChessBoard.mkStandard p1 p2).p2_color ∧
      colorAt (ChessBoard.mkStandard p1 p2) (7, c) = some (ChessBoard.mkStandard p1 p2).p2_color) ∧
    (∀ r c : Fin 8, 2 ≤ r.val → r.val ≤ 5 → (ChessBoard.mkStandard p1 p2).board r c = none) ∧
    ((List.finRange 8).map (fun c => typeAt (ChessBoard.mkStandard p1 p2) (0, c)) =
      [some PieceType.rook, some PieceType.knight, some PieceType.bishop, some PieceType.king,
       some PieceType.queen, some PieceType.bishop, some PieceType.knight, some PieceType.rook] ∧
     (List.finRange 8).map (fun c => typeAt (ChessBoard.mkStandard p1 p2) (7, c)) =
      [some PieceType.rook, some PieceType.knight, some PieceType.bishop, some PieceType.king,
       some PieceType.queen, some PieceType.bishop, some PieceType.knight, some PieceType.rook]) ∧
    (∀ r c : Fin 8, ∀ pid, (ChessBoard.mkStandard p1 p2).board r c = some pid →
      (((ChessBoard.mkStandard p1 p2).heap pid).movingUp = true ↔
        (r.val = 1 ∧ ((ChessBoard.mkStandard p1 p2).heap pid).ptype = PieceType.pawn))) ∧
    (ChessBoard.mkStandard p1 p2).playerOneTurn = true := by
  refine ⟨⟨rfl, rfl, rfl, rfl, rfl, rfl⟩, ?_, ?_, ⟨rfl, rfl⟩, ?_, rfl⟩
  · intro c
    fin_cases c <;> exact ⟨rfl, rfl, rfl, rfl⟩
  · intro r c h2 h5
    fin_cases r <;> simp_all <;> rfl
  · intro r c pid hcell
    have hchk := of_cellsSatisfyB (b := ChessBoard.mkStandard p1 p2)
      (f := fun s pid =>
        ((ChessBoard.mkStandard p1 p2).heap pid).movingUp ==
          (decide (s.1.val = 1) &&
            (((ChessBoard.mkStandard p1 p2).heap pid).ptype == PieceType.pawn)))
      (by rfl) r c pid hcell
    simp only [beq_iff_eq] at hchk
    rw [hchk]
    simp [Bool.and_eq_true, decide_eq_true_iff, beq_iff_eq]

/-- Witness for C7 at concrete inputs: the pawn count, an empty middle
square, and the movingUp flag of the piece at (1,4) on a concrete fresh
board. -/
theorem fresh_board_standard_layout_witness :
    countType (ChessBoard.mkStandard "BLACK" "WHITE") PieceType.pawn = 16 ∧
    (ChessBoard.mkStandard "BLACK" "WHITE").board 3 0 = none ∧
    (((ChessBoard.mkStandard "BLACK" "WHITE").heap 12).movingUp = true ↔
      ((1 : Fin 8).val = 1 ∧
        ((ChessBoard.mkStandard "BLACK" "WHITE").heap 12).ptype = PieceType.pawn)) :=
  ⟨(fresh_board_standard_layout "BLACK" "WHITE").1.1,
   (fresh_board_standard_layout "BLACK" "WHITE").2.2.1 3 0 (by decide) (by decide),
   (fresh_board_standard_layout "BLACK" "WHITE").2.2.2.2.1 1 4 12 (by decide)⟩

/-- C8: the pawn double-jump flag is monotone — once false it stays false
through `move`, `undo` and a full recorded round; every successful move
of a pawn clears it; and a pawn with the flag cleared can never pass
`canMove` for a two-square advance. -/
theorem pawn_double_jump_permanently_cleared (b : ChessBoard) (row col nr nc : Int)
    (pid : Nat) (p : PieceState) (tr tc : Int) (g : Grid) (hp : Heap) :
    ((b.heap pid).doubleJumpable = false →
      ((b.move row col nr nc).2.heap pid).doubleJumpable = false) ∧
    (((b.undo).2.heap pid).doubleJumpable = (b.heap pid).doubleJumpable) ∧
    ((b.heap pid).doubleJumpable = false →
      ((b.attemptRoundMove row col nr nc).2.heap pid).doubleJumpable = false) ∧
    ((b.move row col nr nc).1 = true → b.board (toIdx row) (toIdx col) = some pid →
      (b.heap pid).ptype = PieceType.pawn →
      ((b.move row col nr nc).2.heap pid).doubleJumpable = false) ∧
    (p.ptype = PieceType.pawn → p.doubleJumpable = false →
      tr = p.row + 2 * pawnDir p → tc = p.col →
      p.canMove tr tc g hp = false) := by
  have hmove : ∀ hdj : (b.heap pid).doubleJumpable = false,
      ((b.move row col nr nc).2.heap pid).doubleJumpable = false := by
    intro hdj
    rcases move_total b row col nr nc with hf | ⟨pid0, _, _, _, _, _, _, hs⟩
    · rw [hf]
      exact hdj
    · rw [hs]
      by_cases hpp : pid = pid0
      · subst hpp
        show (updAt b.heap pid (PieceState.flagMoved { b.heap pid with row := nr, col := nc }) pid).doubleJumpable = false
        rw [updAt_same]
        simp only [PieceState.flagMoved]
        split
        · rfl
        · exact hdj
      · show (updAt b.heap pid0 (PieceState.flagMoved { b.heap pid0 with row := nr, col := nc }) pid).doubleJumpable = false
        rw [updAt_other _ _ _ _ hpp]
        exact hdj
  refine ⟨hmove, ?_, ?_, ?_, ?_⟩
  · cases hpm : b.past_moves with
    | nil => simp [ChessBoard.undo, hpm]
    | cons m rest =>
      simp only [ChessBoard.undo, hpm, applyUndo]
      rw [setPos_doubleJumpable, setPos_doubleJumpable]
  · intro hdj
    cases hmv : (b.move row col nr nc).1 with
    | false =>
      simp only [ChessBoard.attemptRoundMove, hmv, Bool.false_eq_true, if_false]
      exact hmove hdj
    | true =>
      simp only [ChessBoard.attemptRoundMove, hmv, if_true]
      exact hmove hdj
  · intro hmv hcell hpawn
    rcases move_success_cases hmv with ⟨pid0, _, _, hsrc, _, _, _, hs⟩
    rw [hcell] at hsrc
    have hpp : pid0 = pid := by
      cases hsrc
      rfl
    subst hpp
    rw [hs]
    show (updAt b.heap pid0 (PieceState.flagMoved { b.heap pid0 with row := nr, col := nc }) pid0).doubleJumpable = false
    rw [updAt_same]
    simp [PieceState.flagMoved, hpawn]
  · intro hpawn hdj htr htc
    rw [PieceState.canMove]
    split
    · rfl
    · split
      · rfl
      · rw [hpawn]
        show pawnGeom p tr tc g hp = false
        rw [pawnGeom]
        subst htr htc
        have hdir : pawnDir p = 1 ∨ pawnDir p = -1 := by
          rw [pawnDir]
          split
          · exact Or.inl rfl
          · exact Or.inr rfl
        have h1 : ¬ (p.row + 2 * pawnDir p = p.row + pawnDir p) := by
          rcases hdir with hd | hd <;> rw [hd] <;> omega
        have h2 : (p.col - p.col).natAbs ≠ 1 := by
          simp
        simp [hdj, h1, h2]

/-- A concrete pawn state used by the C8 witness: the player-one pawn
after its double step, with the double-jump flag cleared. -/
def samplePawn : PieceState :=
  { ptype := PieceType.pawn, color := "BLACK", row := 3, col := 4,
    hasMoved := true, movingUp := true, doubleJumpable := false }

/-- A throwaway piece state used to fill unused arguments of the C8
witness. -/
def junkPiece : PieceState :=
  { ptype := PieceType.pawn, color := "", row := 0, col := 0,
    hasMoved := false, movingUp := false, doubleJumpable := false }

/-- Witness for C8: after the recorded pawn double step (1,4)-(3,4) on a
fresh board the flag of the moved pawn (id 12) is cleared and undo
preserves it, and the two-square advance of a cleared pawn is rejected by
canMove. -/
theorem pawn_double_jump_permanently_cleared_witness :
    ((((ChessBoard.mkStandard "BLACK" "WHITE").attemptRoundMove 1 4 3 4).2.undo).2.heap 12).doubleJumpable =
      (((ChessBoard.mkStandard "BLACK" "WHITE").attemptRoundMove 1 4 3 4).2.heap 12).doubleJumpable ∧
    (((ChessBoard.mkStandard "BLACK" "WHITE").move 1 4 3 4).2.heap 12).doubleJumpable = false ∧
    samplePawn.canMove (3 + 2 * pawnDir samplePawn) 4
      (ChessBoard.mkStandard "BLACK" "WHITE").board
      (ChessBoard.mkStandard "BLACK" "WHITE").heap = false :=
  ⟨(pawn_double_jump_permanently_cleared
      ((ChessBoard.mkStandard "BLACK" "WHITE").attemptRoundMove 1 4 3 4).2 0 0 0 0 12
      junkPiece 0 0 (fun _ _ => none) (fun _ => junkPiece)).2.1,
   (pawn_double_jump_permanently_cleared (ChessBoard.mkStandard "BLACK" "WHITE") 1 4 3 4 12
      junkPiece 0 0 (fun _ _ => none) (fun _ => junkPiece)).2.2.2.1
      (by decide) (by decide) (by decide),
   (pawn_double_jump_permanently_cleared (ChessBoard.mkStandard "BLACK" "WHITE") 0 0 0 0 0
      samplePawn (3 + 2 * pawnDir samplePawn) 4
      (ChessBoard.mkStandard "BLACK" "WHITE").board
      (ChessBoard.mkStandard "BLACK" "WHITE").heap).2.2.2.2 rfl rfl rfl rfl⟩

/-- C10: the grid-adopting constructor always assigns the player colors
BLACK and WHITE, whatever pieces it is handed; on any board carrying
those player colors a source piece of any other color always fails the
color-in-play guard of `move`; and neither `move` nor `undo` ever changes
a player color or a piece color, so such a piece can never be moved. -/
theorem adopted_board_locks_out_foreign_colors (g : Grid) (hp : Heap) (t : Bool)
    (b : ChessBoard) (row col nr nc : Int) (pid : Nat) :
    ((ChessBoard.mkFromGrid g hp t).p1_color = "BLACK" ∧
     (ChessBoard.mkFromGrid g hp t).p2_color = "WHITE") ∧
    (b.p1_color = "BLACK" → b.p2_color = "WHITE" →
      b.getPieceAt row col = some pid →
      (b.heap pid).color ≠ "BLACK" → (b.heap pid).color ≠ "WHITE" →
      (b.move row col nr nc).1 = false) ∧
    ((b.move row col nr nc).2.p1_color = b.p1_color ∧
     (b.move row col nr nc).2.p2_color = b.p2_color ∧
     ((b.move row col nr nc).2.heap pid).color = (b.heap pid).color) ∧
    ((b.undo).2.p1_color = b.p1_color ∧
     (b.undo).2.p2_color = b.p2_color ∧
     ((b.undo).2.heap pid).color = (b.heap pid).color) := by
  refine ⟨⟨rfl, rfl⟩, ?_, ?_, ?_⟩
  · intro h1 h2 hget hcb hcw
    cases hmv : (b.move row col nr nc).1 with
    | false => rfl
    | true =>
      exfalso
      rcases move_success_cases hmv with ⟨pid0, hb1, _, hsrc, hcol, _, _, _⟩
      rw [ChessBoard.getPieceAt, if_neg (not_not_intro hb1), hsrc] at hget
      have hpp : pid0 = pid := by
        injection hget
      subst hpp
      cases hturn : b.playerOneTurn with
      | true =>
        rw [hturn, if_pos rfl, h1] at hcol
        exact hcb hcol
      | false =>
        rw [hturn] at hcol
        simp only [Bool.false_eq_true, if_false] at hcol
        rw [h2] at hcol
        exact hcw hcol
  · rcases move_total b row col nr nc with hf | ⟨pid0, _, _, _, _, _, _, hs⟩
    · rw [hf]
      exact ⟨rfl, rfl, rfl⟩
    · rw [hs]
      refine ⟨rfl, rfl, ?_⟩
      by_cases hpp : pid = pid0
      · subst hpp
        show (updAt b.heap pid (PieceState.flagMoved { b.heap pid with row := nr, col := nc }) pid).color = (b.heap pid).color
        rw [updAt_same, flagMoved_color]
      · show (updAt b.heap pid0 (PieceState.flagMoved { b.heap pid0 with row := nr, col := nc }) pid).color = (b.heap pid).color
        rw [updAt_other _ _ _ _ hpp]
  · cases hpm : b.past_moves with
    | nil =>
      simp [ChessBoard.undo, hpm]
    | cons m rest =>
      refine ⟨by simp [ChessBoard.undo, hpm, applyUndo], by simp [ChessBoard.undo, hpm, applyUndo], ?_⟩
      simp only [ChessBoard.undo, hpm]
      show (setPos (setPos b.heap m.movedPiece m.orig) m.capturedPiece m.target pid).color =
        (b.heap pid).color
      rw [setPos_color, setPos_color]

/-- A concrete foreign piece: a RED rook, a color neither player can ever
have on an adopted board. -/
def redRook : PieceState :=
  { ptype := PieceType.rook, color := "RED", row := 0, col := 0,
    hasMoved := false, movingUp := false, doubleJumpable := false }

/-- A concrete adopted board holding only the RED rook at (0,0). -/
def foreignBoard : ChessBoard :=
  ChessBoard.mkFromGrid (fun r c => if r.val = 0 ∧ c.val = 0 then some 0 else none)
    (fun _ => redRook) true

/-- Witness for C10: on the concrete adopted board the RED rook at (0,0)
cannot be moved. -/
theorem adopted_board_locks_out_foreign_colors_witness :
    (foreignBoard.p1_color = "BLACK" ∧ foreignBoard.p2_color = "WHITE") ∧
    (foreignBoard.move 0 0 0 5).1 = false :=
  ⟨(adopted_board_locks_out_foreign_colors
      (fun r c => if r.val = 0 ∧ c.val = 0 then some 0 else none) (fun _ => redRook) true
      foreignBoard 0 0 0 5 0).1,
   (adopted_board_locks_out_foreign_colors
      (fun r c => if r.val = 0 ∧ c.val = 0 then some 0 else none) (fun _ => redRook) true
      foreignBoard 0 0 0 5 0).2.1 rfl rfl (by decide) (by decide) (by decide)⟩

/-! Position coherence: the invariant of C9 and the machinery proving it
inductive over the documented operation protocol. -/

/-- Every piece referenced by a grid cell stores exactly the coordinates
of that cell. -/
def posInv (b : ChessBoard) : Prop :=
  ∀ r c : Fin 8, ∀ pid, b.board r c = some pid →
    (b.heap pid).row = (r.val : Int) ∧ (b.heap pid).col = (c.val : Int)

/-- Under posInv, a piece id occupies at most one cell. -/
theorem posInv_unique {b : ChessBoard} (h : posInv b) {r c r2 c2 : Fin 8} {pid : Nat}
    (h1 : b.board r c = some pid) (h2 : b.board r2 c2 = some pid) :
    r = r2 ∧ c = c2 := by
  obtain ⟨hr, hc⟩ := h r c pid h1
  obtain ⟨hr2, hc2⟩ := h r2 c2 pid h2
  constructor
  · apply Fin.ext
    have : (r.val : Int) = (r2.val : Int) := by rw [← hr, ← hr2]
    exact_mod_cast this
  · apply Fin.ext
    have : (c.val : Int) = (c2.val : Int) := by rw [← hc, ← hc2]
    exact_mod_cast this

/-- The conditions on the top move record under which reverting it keeps
the position coherence: the moved and captured references are distinct,
and each occurs on the grid only at the recorded source or target cell.
In a run that follows the documented protocol these hold at every undo. -/
def TopOk (m : Move) (b : ChessBoard) : Prop :=
  (∀ p, m.movedPiece = some p → m.capturedPiece ≠ some p) ∧
  (∀ p, m.movedPiece = some p → ∀ r c : Fin 8, b.board r c = some p →
     (r = m.orig.1 ∧ c = m.orig.2) ∨ (r = m.target.1 ∧ c = m.target.2)) ∧
  (∀ q, m.capturedPiece = some q → ∀ r c : Fin 8, b.board r c = some q →
     (r = m.orig.1 ∧ c = m.orig.2) ∨ (r = m.target.1 ∧ c = m.target.2))

/-- The whole pending history is revertible: each record satisfies TopOk
in the state reached by undoing the records above it. -/
def HistOk : List Move → ChessBoard → Prop
  | [], _ => True
  | m :: rest, b => TopOk m b ∧ HistOk rest (applyUndo m b)

/-- Two board states with the same grid and the same stored piece
coordinates (flags and colors may differ). -/
def SameShape (a b : ChessBoard) : Prop :=
  (∀ r c : Fin 8, a.board r c = b.board r c) ∧
  (∀ n, (a.heap n).row = (b.heap n).row ∧ (a.heap n).col = (b.heap n).col)

theorem sameShape_symm {a b : ChessBoard} (h : SameShape a b) : SameShape b a :=
  ⟨fun r c => (h.1 r c).symm, fun n => ⟨(h.2 n).1.symm, (h.2 n).2.symm⟩⟩

theorem setPos_hit (hp : Heap) (s : Square) (pid : Nat) :
    setPos hp (some pid) s pid =
      { hp pid with row := (s.1.val : Int), col := (s.2.val : Int) } := by
  simp [setPos, updAt_same]

theorem setPos_skip (hp : Heap) (o : Option Nat) (s : Square) (pid : Nat)
    (h : o ≠ some pid) : setPos hp o s pid = hp pid := by
  cases o with
  | none => rfl
  | some q =>
    have hq : pid ≠ q := by
      intro hh
      exact h (by rw [hh])
    simp [setPos, updAt_other _ _ _ _ hq]

/-- Reverting a TopOk move record preserves position coherence. -/
theorem posInv_applyUndo {m : Move} {b : ChessBoard} (hInv : posInv b) (hTop : TopOk m b) :
    posInv (applyUndo m b) := by
  obtain ⟨hBne, hMov, hCap⟩ := hTop
  intro r c pid h
  simp only [applyUndo, setCell] at h
  show (setPos (setPos b.heap m.movedPiece m.orig) m.capturedPiece m.target pid).row = (r.val : Int) ∧
       (setPos (setPos b.heap m.movedPiece m.orig) m.capturedPiece m.target pid).col = (c.val : Int)
  split_ifs at h with hT hO
  · -- the target cell holds the captured reference, whose coordinates are
    -- set to the target square last
    rw [h, setPos_hit]
    exact ⟨by rw [hT.1], by rw [hT.2]⟩
  · -- the source cell holds the moved reference; the captured update does
    -- not overwrite it because the two references differ
    rw [setPos_skip _ _ _ _ (hBne pid h), h, setPos_hit]
    exact ⟨by rw [hO.1], by rw [hO.2]⟩
  · -- any other cell is untouched, and so is its piece
    have hM : m.movedPiece ≠ some pid := by
      intro hm
      rcases hMov pid hm r c h with hcase | hcase
      · exact hO hcase
      · exact hT hcase
    have hC : m.capturedPiece ≠ some pid := by
      intro hm
      rcases hCap pid hm r c h with hcase | hcase
      · exact hO hcase
      · exact hT hcase
    rw [setPos_skip _ _ _ _ hC, setPos_skip _ _ _ _ hM]
    exact hInv r c pid h

theorem setPos_coords_congr {hpa hpb : Heap}
    (h : ∀ n, (hpa n).row = (hpb n).row ∧ (hpa n).col = (hpb n).col)
    (o : Option Nat) (s : Square) (n : Nat) :
    (setPos hpa o s n).row = (setPos hpb o s n).row ∧
    (setPos hpa o s n).col = (setPos hpb o s n).col := by
  cases o with
  | none => exact h n
  | some pid =>
    by_cases hn : n = pid
    · subst hn
      rw [setPos_hit, setPos_hit]
      exact ⟨rfl, rfl⟩
    · have hne : (some pid : Option Nat) ≠ some n := by
        simpa using Ne.symm hn
      rw [setPos_skip _ _ _ _ hne, setPos_skip _ _ _ _ hne]
      exact h n

/-- TopOk only reads the grid, so it transfers along SameShape. -/
theorem topOk_congr {a b : ChessBoard} (hs : SameShape a b) {m : Move}
    (h : TopOk m a) : TopOk m b := by
  obtain ⟨h1, h2, h3⟩ := h
  refine ⟨h1, ?_, ?_⟩
  · intro p hp r c hcell
    exact h2 p hp r c (by rw [hs.1 r c]; exact hcell)
  · intro q hq r c hcell
    exact h3 q hq r c (by rw [hs.1 r c]; exact hcell)

/-- Reverting the same record on two same-shaped states keeps them
same-shaped. -/
theorem sameShape_applyUndo (m : Move) {a b : ChessBoard} (hs : SameShape a b) :
    SameShape (applyUndo m a) (applyUndo m b) := by
  constructor
  · intro r c
    simp only [applyUndo, setCell]
    split_ifs
    · rfl
    · rfl
    · exact hs.1 r c
  · intro n
    exact setPos_coords_congr
      (fun k => setPos_coords_congr hs.2 m.movedPiece m.orig k) m.capturedPiece m.target n

/-- HistOk only reads the grid and the piece coordinates, so it transfers
along SameShape. -/
theorem histOk_congr : ∀ (h : List Move) (a b : ChessBoard),
    SameShape a b → HistOk h a → HistOk h b
  | [], _, _, _, _ => trivial
  | m :: rest, _, _, hs, hok =>
    ⟨topOk_congr hs hok.1, histOk_congr rest _ _ (sameShape_applyUndo m hs) hok.2⟩

/-- A call to `move` — successful or not — preserves position coherence. -/
theorem posInv_move {b : ChessBoard} (hInv : posInv b) (row col nr nc : Int) :
    posInv (b.move row col nr nc).2 := by
  rcases move_total b row col nr nc with hf | ⟨pid0, hb1, hb2, hsrc, _, hcan, _, hs⟩
  · rw [hf]
    exact hInv
  · rw [hs]
    intro r c pid h
    simp only [setCell] at h
    show (updAt b.heap pid0 (PieceState.flagMoved { b.heap pid0 with row := nr, col := nc }) pid).row = (r.val : Int) ∧
         (updAt b.heap pid0 (PieceState.flagMoved { b.heap pid0 with row := nr, col := nc }) pid).col = (c.val : Int)
    obtain ⟨hnr0, hnr8, hnc0, hnc8⟩ := hb2
    split_ifs at h with hO hT
    · -- the destination cell now holds the moved piece, whose stored
      -- coordinates were set to the destination
      have hpp : pid0 = pid := Option.some.inj h
      subst hpp
      rw [updAt_same]
      constructor
      · show nr = (r.val : Int)
        rw [hT.1]
        exact (toIdx_val hnr0 hnr8).symm
      · show nc = (c.val : Int)
        rw [hT.2]
        exact (toIdx_val hnc0 hnc8).symm
    · -- every other cell still holds a piece different from the mover
      have hpp : pid ≠ pid0 := by
        intro he
        subst he
        obtain ⟨hr1, hc1⟩ := hInv r c pid h
        obtain ⟨hr2, hc2⟩ := hInv (toIdx row) (toIdx col) pid hsrc
        apply hO
        constructor
        · apply Fin.ext
          have : (r.val : Int) = ((toIdx row).val : Int) := by rw [← hr1, ← hr2]
          exact_mod_cast this
        · apply Fin.ext
          have : (c.val : Int) = ((toIdx col).val : Int) := by rw [← hc1, ← hc2]
          exact_mod_cast this
      rw [updAt_other _ _ _ _ hpp]
      exact hInv r c pid h

/-- A fresh board is position coherent. -/
theorem posInv_mkStandard (p1 p2 : String) : posInv (ChessBoard.mkStandard p1 p2) := by
  intro r c pid hcell
  have hchk := of_cellsSatisfyB (b := ChessBoard.mkStandard p1 p2)
    (f := fun s pid =>
      (((ChessBoard.mkStandard p1 p2).heap pid).row == (s.1.val : Int)) &&
      (((ChessBoard.mkStandard p1 p2).heap pid).col == (s.2.val : Int)))
    (by rfl) r c pid hcell
  simpa only [Bool.and_eq_true, beq_iff_eq] using hchk

theorem eq_toIdx_of_val {r : Fin 8} {x : Int} (h0 : 0 ≤ x) (h8 : x < 8)
    (h : (r.val : Int) = x) : r = toIdx x := by
  apply Fin.ext
  have hv := toIdx_val h0 h8
  have : (r.val : Int) = ((toIdx x).val : Int) := by rw [h, hv]
  exact_mod_cast this

/-- The induction invariant: the state is position coherent and its whole
pending history is revertible. -/
def GoodState (b : ChessBoard) : Prop := posInv b ∧ HistOk b.past_moves b

theorem goodState_mkStandard (p1 p2 : String) : GoodState (ChessBoard.mkStandard p1 p2) :=
  ⟨posInv_mkStandard p1 p2, trivial⟩

/-- Undo preserves the induction invariant. -/
theorem goodState_undo {b : ChessBoard} (hg : GoodState b) : GoodState (b.undo).2 := by
  obtain ⟨hInv, hHist⟩ := hg
  cases hpm : b.past_moves with
  | nil =>
    simp only [ChessBoard.undo, hpm]
    rw [hpm] at hHist
    exact ⟨hInv, by rw [hpm]; exact hHist⟩
  | cons m rest =>
    rw [hpm] at hHist
    obtain ⟨hTop, hRest⟩ := hHist
    simp only [ChessBoard.undo, hpm]
    constructor
    · exact fun r c pid hh => posInv_applyUndo hInv hTop r c pid hh
    · show HistOk rest { applyUndo m b with past_moves := rest }
      exact histOk_congr rest (applyUndo m b) _ ⟨fun r c => rfl, fun n => ⟨rfl, rfl⟩⟩ hRest

/-- One round — a move attempt, recorded and turn-toggled on success —
preserves the induction invariant. -/
theorem goodState_round {b : ChessBoard} (hg : GoodState b) (ir ic sr sc : Int) :
    GoodState (b.attemptRoundMove ir ic sr sc).2 := by
  obtain ⟨hInv, hHist⟩ := hg
  cases hmv : (b.move ir ic sr sc).1 with
  | false =>
    have hf : b.move ir ic sr sc = (false, b) := by
      rcases move_total b ir ic sr sc with hf | ⟨pid, _, _, _, _, _, _, hs⟩
      · exact hf
      · rw [hs] at hmv
        cases hmv
    simp only [ChessBoard.attemptRoundMove, hmv, Bool.false_eq_true, if_false, hf]
    exact ⟨hInv, hHist⟩
  | true =>
    rcases move_success_cases hmv with ⟨pid0, hb1, hb2, hsrc, hcol, hcan, hkref, hs⟩
    obtain ⟨hir0, hir8, hic0, hic8⟩ := hb1
    obtain ⟨hsr0, hsr8, hsc0, hsc8⟩ := hb2
    have hga : b.getPieceAt ir ic = some pid0 := by
      rw [ChessBoard.getPieceAt, if_neg (not_not_intro ⟨hir0, hir8, hic0, hic8⟩)]
      exact hsrc
    have hgb : b.getPieceAt sr sc = b.board (toIdx sr) (toIdx sc) := by
      rw [ChessBoard.getPieceAt, if_neg (not_not_intro ⟨hsr0, hsr8, hsc0, hsc8⟩)]
    have hcapne : b.board (toIdx sr) (toIdx sc) ≠ some pid0 := canMove_target_not_self hcan
    have hround : (b.attemptRoundMove ir ic sr sc).2 =
        { b with
          board := setCell (setCell b.board (toIdx sr, toIdx sc) (some pid0))
                           (toIdx ir, toIdx ic) none,
          heap := updAt b.heap pid0
                    (PieceState.flagMoved { b.heap pid0 with row := sr, col := sc }),
          playerOneTurn := !b.playerOneTurn,
          past_moves :=
            { orig := (toIdx ir, toIdx ic), target := (toIdx sr, toIdx sc),
              movedPiece := some pid0,
              capturedPiece := b.board (toIdx sr) (toIdx sc) } :: b.past_moves } := by
      simp only [ChessBoard.attemptRoundMove, hmv, if_true, hs, hga, hgb]
    have hInv1 : posInv (b.move ir ic sr sc).2 := posInv_move hInv ir ic sr sc
    rw [hs] at hInv1
    rw [hround]
    have hInvS : posInv
        { b with
          board := setCell (setCell b.board (toIdx sr, toIdx sc) (some pid0))
                           (toIdx ir, toIdx ic) none,
          heap := updAt b.heap pid0
                    (PieceState.flagMoved { b.heap pid0 with row := sr, col := sc }),
          playerOneTurn := !b.playerOneTurn,
          past_moves :=
            { orig := (toIdx ir, toIdx ic), target := (toIdx sr, toIdx sc),
              movedPiece := some pid0,
              capturedPiece := b.board (toIdx sr) (toIdx sc) } :: b.past_moves } :=
      fun r c pid hh => hInv1 r c pid hh
    have hmoverCoords : ∀ r c : Fin 8,
        setCell (setCell b.board (toIdx sr, toIdx sc) (some pid0)) (toIdx ir, toIdx ic) none r c =
          some pid0 → r = toIdx sr ∧ c = toIdx sc := by
      intro r c hcell
      have hco := hInvS r c pid0 hcell
      simp only [updAt_same, flagMoved_row, flagMoved_col] at hco
      exact ⟨eq_toIdx_of_val hsr0 hsr8 hco.1.symm, eq_toIdx_of_val hsc0 hsc8 hco.2.symm⟩
    have hotherCoords : ∀ q, q ≠ pid0 → ∀ r c : Fin 8,
        setCell (setCell b.board (toIdx sr, toIdx sc) (some pid0)) (toIdx ir, toIdx ic) none r c =
          some q →
        (b.heap q).row = (r.val : Int) ∧ (b.heap q).col = (c.val : Int) := by
      intro q hq r c hcell
      have hco := hInvS r c q hcell
      simp only [updAt_other _ _ _ _ hq] at hco
      exact hco
    constructor
    · exact hInvS
    · show TopOk _ _ ∧ HistOk b.past_moves _
      constructor
      · refine ⟨?_, ?_, ?_⟩
        · intro p hp
          cases hp
          exact hcapne
        · intro p hp r c hcell
          cases hp
          exact Or.inr (hmoverCoords r c hcell)
        · intro q hq r c hcell
          have hqne : q ≠ pid0 := by
            intro he
            subst he
            exact hcapne hq
          obtain ⟨hr2, hc2⟩ := hInv (toIdx sr) (toIdx sc) q hq
          obtain ⟨hr1, hc1⟩ := hotherCoords q hqne r c hcell
          refine Or.inr ⟨?_, ?_⟩
          · apply Fin.ext
            have : (r.val : Int) = ((toIdx sr).val : Int) := by rw [← hr1, hr2]
            exact_mod_cast this
          · apply Fin.ext
            have : (c.val : Int) = ((toIdx sc).val : Int) := by rw [← hc1, hc2]
            exact_mod_cast this
      · -- undoing the freshly pushed record brings the grid and all piece
        -- coordinates back to those of the starting state
        apply histOk_congr b.past_moves b
        apply sameShape_symm
        constructor
        · intro r c
          simp only [applyUndo, setCell]
          split_ifs with hT hO
          · rw [hT.1, hT.2]
          · rw [hO.1, hO.2]
            exact hsrc.symm
          · rfl
        · intro n
          show (setPos (setPos
                (updAt b.heap pid0
                  (PieceState.flagMoved { b.heap pid0 with row := sr, col := sc }))
                (some pid0) (toIdx ir, toIdx ic))
              (b.board (toIdx sr) (toIdx sc)) (toIdx sr, toIdx sc) n).row = (b.heap n).row ∧
            (setPos (setPos
                (updAt b.heap pid0
                  (PieceState.flagMoved { b.heap pid0 with row := sr, col := sc }))
                (some pid0) (toIdx ir, toIdx ic))
              (b.board (toIdx sr) (toIdx sc)) (toIdx sr, toIdx sc) n).col = (b.heap n).col
          by_cases hn0 : n = pid0
          · subst hn0
            rw [setPos_skip _ _ _ _ hcapne, setPos_hit]
            obtain ⟨hr0, hc0⟩ := hInv (toIdx ir) (toIdx ic) n hsrc
            exact ⟨hr0.symm, hc0.symm⟩
          · cases hcap : b.board (toIdx sr) (toIdx sc) with
            | none =>
              rw [setPos_skip _ _ _ _ (by simp), setPos_skip _ _ _ _ (by simpa using Ne.symm hn0),
                updAt_other _ _ _ _ hn0]
              exact ⟨rfl, rfl⟩
            | some q =>
              by_cases hnq : n = q
              · subst hnq
                rw [setPos_hit]
                obtain ⟨hr0, hc0⟩ := hInv (toIdx sr) (toIdx sc) n hcap
                exact ⟨hr0.symm, hc0.symm⟩
              · rw [setPos_skip _ _ _ _ (by simpa using Ne.symm hnq),
                  setPos_skip _ _ _ _ (by simpa using Ne.symm hn0),
                  updAt_other _ _ _ _ hn0]
                exact ⟨rfl, rfl⟩
        · exact hHist

/-- The states reachable through the documented protocol: a fresh
two-color board, rounds (a move, recorded and turn-toggled on success),
and undos. -/
inductive Reach : ChessBoard → Prop where
  | fresh (p1 p2 : String) : Reach (ChessBoard.mkStandard p1 p2)
  | round (b : ChessBoard) (ir ic sr sc : Int) :
      Reach b → Reach (b.attemptRoundMove ir ic sr sc).2
  | undoStep (b : ChessBoard) : Reach b → Reach (b.undo).2

theorem reach_goodState {b : ChessBoard} (h : Reach b) : GoodState b := by
  induction h with
  | fresh p1 p2 => exact goodState_mkStandard p1 p2
  | round b ir ic sr sc _ ih => exact goodState_round ih ir ic sr sc
  | undoStep b _ ih => exact goodState_undo ih

/-- C9: in every state reachable through the documented move/undo
protocol, a piece referenced by a grid cell stores exactly the
coordinates of that cell. -/
theorem reachable_states_position_coherent (b : ChessBoard) (hb : Reach b)
    (r c : Fin 8) (pid : Nat) (h : b.board r c = some pid) :
    (b.heap pid).row = (r.val : Int) ∧ (b.heap pid).col = (c.val : Int) :=
  (reach_goodState hb).1 r c pid h

/-- Witness for C9: the pawn moved by a recorded round on a fresh board
stores the coordinates of the cell (3,4) that references it. -/
theorem reachable_states_position_coherent_witness :
    ((((ChessBoard.mkStandard "BLACK" "WHITE").attemptRoundMove 1 4 3 4).2.heap 12).row =
      (((3 : Fin 8)).val : Int)) ∧
    ((((ChessBoard.mkStandard "BLACK" "WHITE").attemptRoundMove 1 4 3 4).2.heap 12).col =
      (((4 : Fin 8)).val : Int)) :=
  reachable_states_position_coherent _
    (Reach.round _ 1 4 3 4 (Reach.fresh "BLACK" "WHITE")) 3 4 12 (by decide)

end Chess
